import Mathlib

/-!
Shallow embedding of `mesh_transformer/transformer_shard.py` and verification
of the specification's claims about it.

Machine floating-point tensors are idealized as functions into `ℝ` (or `ℚ`
where exact decidable arithmetic suffices); the model-parallel shard axis of
size `k` is idealized as an index type `Fin k`, so a sharded tensor is a
function from shard index to local value.
-/

set_option maxHeartbeats 1000000

namespace MeshTransformer

/-- `jax.lax.psum(x, "shard")`: cross-shard sum, result replicated to each shard. -/
def laxPsum {α : Type} [AddCommMonoid α] {k : ℕ} (x : Fin k → α) : Fin k → α :=
  fun _ => ∑ i, x i

/-- `jax.lax.pmean(x, "shard")`: cross-shard mean, result replicated to each shard. -/
noncomputable def laxPmean {k : ℕ} (x : Fin k → ℝ) : Fin k → ℝ :=
  fun _ => (∑ i, x i) / (k : ℝ)

/-- `f_psum`: identity in the forward pass (per-shard value returned unchanged). -/
def f_psum {α : Type} {k : ℕ} (x : Fin k → α) : Fin k → α := x

/-- Registered backward rule of `f_psum`: `jax.lax.psum(g, "shard")`. -/
def f_psum_bwd {α : Type} [AddCommMonoid α] {k : ℕ} (g : Fin k → α) : Fin k → α :=
  laxPsum g

/-- `f_pmean`: identity in the forward pass (its fwd rule returns `f_psum(x)`,
whose primal value is `x`). -/
def f_pmean {α : Type} {k : ℕ} (x : Fin k → α) : Fin k → α := x

/-- Registered backward rule of `f_pmean`: `jax.lax.pmean(g, "shard")`. -/
noncomputable def f_pmean_bwd {k : ℕ} (g : Fin k → ℝ) : Fin k → ℝ :=
  laxPmean g

/-- `g_psum`: its primal/forward computation is `jax.lax.psum(x, "shard")`. -/
def g_psum {α : Type} [AddCommMonoid α] {k : ℕ} (x : Fin k → α) : Fin k → α :=
  laxPsum x

/-- Registered backward rule of `g_psum`: the upstream gradient `g`, unchanged. -/
def g_psum_bwd {α : Type} {k : ℕ} (g : Fin k → α) : Fin k → α := g

/-! ## Configuration and construction-time assertions (`__init__` methods) -/

/-- The configuration fields consumed by the shard constructors. -/
structure TransformerConfig where
  n_vocab : ℕ
  d_model : ℕ
  n_heads : ℕ
  cores_per_replica : ℕ
  layers : ℕ

/-- The `assert in_dim % shards == 0` statement in `EmbeddingShard.__init__`. -/
def embeddingShardAssert (c : TransformerConfig) : Bool :=
  c.n_vocab % c.cores_per_replica == 0

/-- The `assert dim % heads == 0` and `assert heads % shards == 0` statements in
`TransformerLayerShard.__init__`. -/
def transformerLayerShardAsserts (c : TransformerConfig) : Bool :=
  (c.d_model % c.n_heads == 0) && (c.n_heads % c.cores_per_replica == 0)

/-- The `assert out_dim % shards == 0` statement in `ProjectionShard.__init__`. -/
def projectionShardAssert (c : TransformerConfig) : Bool :=
  c.n_vocab % c.cores_per_replica == 0

/-- All assertions executed while `CausalTransformerShard.__init__` builds its
modules: one `EmbeddingShard`, `layers` many `TransformerLayerShard`s (so their
asserts run only when `layers > 0`), and one `ProjectionShard`. -/
def causalTransformerShardAsserts (c : TransformerConfig) : Bool :=
  embeddingShardAssert c
    && (c.layers == 0 || transformerLayerShardAsserts c)
    && projectionShardAssert c

/-- The four invariants the specification requires of every configuration. -/
def configInvariants (c : TransformerConfig) : Prop :=
  c.d_model % c.n_heads = 0 ∧ c.n_heads % c.cores_per_replica = 0 ∧
    c.n_vocab % c.cores_per_replica = 0 ∧ c.d_model % c.cores_per_replica = 0

/-- A configuration with zero transformer layers whose `d_model` is not a
multiple of `n_heads`. -/
def zeroLayerConfig : TransformerConfig :=
  { n_vocab := 8, d_model := 5, n_heads := 3, cores_per_replica := 2, layers := 0 }

/-- A well-formed example configuration. -/
def okConfig : TransformerConfig :=
  { n_vocab := 8, d_model := 4, n_heads := 2, cores_per_replica := 2, layers := 1 }

/-! ## Normalization factory (`getnorm`) -/

/-- The normalization module selected by `getnorm`: `ReplicatedLayerNorm(offset)`
or `RMSNorm(offset, elementwise)`. -/
inductive NormModule where
  | replicatedLayerNorm (offset : Bool)
  | rmsNorm (offset : Bool) (elementwise : Bool)
deriving DecidableEq

/-- `getnorm(type)`: the six-way dispatch on the configured name; the final
`else` branch raises (`Exception("Not implemented")`), modelled as `none`. -/
def getnorm (t : String) : Option NormModule :=
  if t = "layernorm" then some (NormModule.replicatedLayerNorm true)
  else if t = "layernorm-nobias" then some (NormModule.replicatedLayerNorm false)
  else if t = "rmsnorm" then some (NormModule.rmsNorm false true)
  else if t = "scalenorm" then some (NormModule.rmsNorm false false)
  else if t = "rmsnorm-bias" then some (NormModule.rmsNorm true true)
  else if t = "scalenorm-bias" then some (NormModule.rmsNorm true false)
  else none

/-! ## Training / evaluation orchestration (`CausalTransformer`) -/

/-- The training state dictionary `{"params", "step", "opt_state"}`. -/
structure TrainState (P O : Type) where
  params : P
  step : ℕ
  optState : O
deriving DecidableEq

/-- The operations the orchestration layer consumes from its external
collaborators (autodiff engine, precision casts, optimizer), kept abstract:
`P` parameter/gradient trees, `O` optimizer state, `L` per-microbatch losses,
`C`/`T` context/target microbatches. -/
structure EngineOps (P O L C T : Type) where
  toBF16 : P → P
  toF32P : P → P
  toF32L : L → L
  valueAndGrad : P → C → T → L × P
  treeAdd : P → P → P
  zeroLikeBF16 : P → P
  pmeanBatch : P → P
  optUpdate : P → O → P → P × O
  applyUpdates : P → P → P
  evalLossFn : P → C → T → L

/-- `jax.lax.scan`: left-to-right carry with stacked per-step outputs. -/
def scanList {S A B : Type} (f : S → A → S × B) : S → List A → S × List B
  | s, [] => (s, [])
  | s, a :: rest =>
    let r := f s a
    let rr := scanList f r.1 rest
    (rr.1, r.2 :: rr.2)

/-- The `microbatch(old_grad, batch)` body inside `train`: differentiate the
loss at the bf16-cast parameters and add the new gradient to the accumulator,
returning `(new_grad, value)`. -/
def microbatchStep {P O L C T : Type} (ops : EngineOps P O L C T) (params : P)
    (oldGrad : P) (b : C × T) : P × L :=
  let vg := ops.valueAndGrad (ops.toBF16 params) b.1 b.2
  (ops.treeAdd oldGrad vg.2, vg.1)

/-- The inner `train(state, ctx, tgt)` function of `CausalTransformer.__init__`:
scan over microbatches from a zero bf16 accumulator, `pmean` the accumulated
gradient over the `"batch"` axis, run the optimizer on that gradient, apply the
f32-cast updates to the params, and bump the step counter. -/
def trainStep {P O L C T : Type} (ops : EngineOps P O L C T)
    (state : TrainState P O) (batches : List (C × T)) :
    List L × TrainState P O :=
  let scanned := scanList (microbatchStep ops state.params)
    (ops.zeroLikeBF16 state.params) batches
  let grad := ops.pmeanBatch scanned.1
  let upd := ops.optUpdate grad state.optState state.params
  (scanned.2.map ops.toF32L,
   { params := ops.applyUpdates state.params (ops.toF32P upd.1),
     step := state.step + 1,
     optState := upd.2 })

/-- Modelled from the claim's words (not the source): the same pipeline, but
with the averaged gradient cast to full precision *before* the optimizer runs,
and the optimizer's updates applied without a further cast. -/
def trainStepPerClaim {P O L C T : Type} (ops : EngineOps P O L C T)
    (state : TrainState P O) (batches : List (C × T)) :
    List L × TrainState P O :=
  let scanned := scanList (microbatchStep ops state.params)
    (ops.zeroLikeBF16 state.params) batches
  let grad := ops.toF32P (ops.pmeanBatch scanned.1)
  let upd := ops.optUpdate grad state.optState state.params
  (scanned.2.map ops.toF32L,
   { params := ops.applyUpdates state.params upd.1,
     step := state.step + 1,
     optState := upd.2 })

/-- The inner `eval(state, ctx, tgt)` function of `CausalTransformer.__init__`:
apply the loss function to the bf16-cast parameters; nothing else is read or
written. -/
def evalStep {P O L C T : Type} (ops : EngineOps P O L C T)
    (state : TrainState P O) (ctx : C) (tgt : T) : L :=
  ops.evalLossFn (ops.toBF16 state.params) ctx tgt

/-- The `CausalTransformer.eval` method: it calls `eval_xmap(self.state, ...)`
and returns the loss; unlike `CausalTransformer.train` it never reassigns
`self.state`, which we make explicit by returning the state unchanged. -/
def causalTransformerEval {P O L C T : Type} (ops : EngineOps P O L C T)
    (state : TrainState P O) (ctx : C) (tgt : T) : L × TrainState P O :=
  (evalStep ops state ctx tgt, state)

/-- A concrete instantiation of the engine operations over integers, used to
exhibit concrete behaviours of the orchestration pipeline. -/
def intOps : EngineOps ℤ ℤ ℤ ℤ ℤ :=
  { toBF16 := fun p => p
    toF32P := fun p => p + 1
    toF32L := fun l => l
    valueAndGrad := fun _ _ _ => (0, 3)
    treeAdd := fun a b => a + b
    zeroLikeBF16 := fun _ => 0
    pmeanBatch := fun g => g
    optUpdate := fun g o _ => (2 * g, o)
    applyUpdates := fun p u => p + u
    evalLossFn := fun p c t => p + c + t }

/-- A concrete integer training state. -/
def intState : TrainState ℤ ℤ := { params := 0, step := 0, optState := 0 }

/-! ## Model assembly (`CausalTransformerShard.eval`) -/

/-- The body of `CausalTransformerShard.eval` after the embedding: the loop
`for l in self.transformer_layers: x = x + l(x, attn_bias)` followed by
`self.proj.loss(x, target)`.  Layers are abstracted as functions of the
activation and the attention bias. -/
def causalTransformerShardEval {α β γ δ : Type} [Add α] (embed : γ → α)
    (attnBias : β) (layers : List (α → β → α)) (projLoss : α → δ)
    (context : γ) : δ :=
  projLoss (layers.foldl (fun x l => x + l x attnBias) (embed context))

/-- Modelled from the claim's words: the activation stream where every layer is
applied through an additive residual connection, `x` becoming
`x + l(x, attentionBias)`. -/
def residualStream {α β : Type} [Add α] (attnBias : β)
    (layers : List (α → β → α)) (x : α) : α :=
  layers.foldl (fun x l => x + l x attnBias) x

/-! ## Vocabulary sharding: global index `⟷` (shard, local index) -/

/-- The bijection between a global vocabulary index and its (shard index,
local index) pair when a vocabulary of size `(k+1)*(p+1)` is split evenly into
`k+1` shards of `p+1` entries, shard `i` owning global rows
`[i*(p+1), (i+1)*(p+1))`. -/
def vocabEquiv (k p : ℕ) : Fin (k + 1) × Fin (p + 1) ≃ Fin ((k + 1) * (p + 1)) where
  toFun ij := ⟨ij.1.val * (p + 1) + ij.2.val, by
    have h1 : ij.1.val ≤ k := Nat.lt_succ_iff.mp ij.1.isLt
    have h2 : ij.2.val ≤ p := Nat.lt_succ_iff.mp ij.2.isLt
    have h3 : ij.1.val * (p + 1) + ij.2.val ≤ k * (p + 1) + p :=
      Nat.add_le_add (Nat.mul_le_mul_right _ h1) h2
    have h4 : (k + 1) * (p + 1) = k * (p + 1) + p + 1 := by ring
    omega⟩
  invFun v :=
    (⟨v.val / (p + 1), (Nat.div_lt_iff_lt_mul (Nat.succ_pos p)).mpr v.isLt⟩,
     ⟨v.val % (p + 1), Nat.mod_lt _ (Nat.succ_pos p)⟩)
  left_inv := by
    rintro ⟨i, j⟩
    have hd : (i.val * (p + 1) + j.val) / (p + 1) = i.val := by
      rw [Nat.add_comm, Nat.mul_comm, Nat.add_mul_div_left _ _ (Nat.succ_pos p),
        Nat.div_eq_of_lt j.isLt, Nat.zero_add]
    have hm : (i.val * (p + 1) + j.val) % (p + 1) = j.val := by
      rw [Nat.add_comm, Nat.mul_comm, Nat.add_mul_mod_self_left,
        Nat.mod_eq_of_lt j.isLt]
    simp [Prod.ext_iff, Fin.ext_iff, hd, hm]
  right_inv := by
    intro v
    apply Fin.ext
    show v.val / (p + 1) * (p + 1) + v.val % (p + 1) = v.val
    rw [Nat.mul_comm]
    exact Nat.div_add_mod _ _

/-- Reading a per-shard family as one concatenated vocabulary-indexed family:
entry `v` lives on shard `v / (p+1)` at local index `v % (p+1)`. -/
def concatShards {M : Type} {k p : ℕ} (f : Fin (k + 1) → Fin (p + 1) → M)
    (v : Fin ((k + 1) * (p + 1))) : M :=
  f ⟨v.val / (p + 1), (Nat.div_lt_iff_lt_mul (Nat.succ_pos p)).mpr v.isLt⟩
    ⟨v.val % (p + 1), Nat.mod_lt _ (Nat.succ_pos p)⟩

/-! ## Sharded cross-entropy (`ProjectionShard.loss`) -/

/-- `jax.nn.one_hot(idx, p)` at row `idx`: a one at position `idx` when
`0 <= idx < p`, and an all-zero row otherwise. -/
def oneHot (p : ℕ) (idx : ℤ) : Fin p → ℝ :=
  fun j => if (j.val : ℤ) = idx then 1 else 0

/-- `jax.lax.pmax(logits.max(-1), "shard")`: the global maximum over every
shard's local logits (the `stop_gradient` wrapper only detaches the gradient
and does not change the value). -/
noncomputable def globalMax {k p : ℕ} (l : Fin (k + 1) → Fin (p + 1) → ℝ) : ℝ :=
  Finset.univ.sup' Finset.univ_nonempty
    (fun i => Finset.univ.sup' Finset.univ_nonempty (l i))

/-- `ProjectionShard.loss` on one token, taking the shard-local logits
`l i : Fin (p+1) → ℝ` (shard `i`'s projection output) and the target token id
`t` as input: shift all logits by the gradient-detached global max; extract
the shifted target logit through a local one-hot against
`targets - shard_start_index` and combine by a forward sum (`g_psum`); sum the
shifted exponentials locally and combine by a forward sum; return
`log(sum_exp_logits) - predicted_logits` (the value is identical on every
shard, so the replicated value is returned). -/
noncomputable def projectionShardLoss {k p : ℕ}
    (l : Fin (k + 1) → Fin (p + 1) → ℝ) (t : ℕ) : ℝ :=
  Real.log (∑ i, ∑ j, Real.exp (l i j - globalMax l))
    - ∑ i, ∑ j, oneHot (p + 1) ((t : ℤ) - (i.val * (p + 1) : ℕ)) j
        * (l i j - globalMax l)

/-- Concrete single-shard, single-entry logits used to instantiate the loss
theorem. -/
noncomputable def exLogits : Fin 1 → Fin 1 → ℝ := fun _ _ => 0

/-! ## Sharded embedding (`EmbeddingShard.__call__`) -/

/-- The row `shard_index == x` of the local one-hot encoding built in
`EmbeddingShard.__call__`, where `shard_index = arange(perShard) + i*perShard`:
a one at local position `j` iff shard `i` owns global row `i*perShard + j = x`. -/
def embedOneHotRow (perShard : ℕ) (i x : ℕ) : Fin perShard → ℚ :=
  fun j => if i * perShard + j.val = x then 1 else 0

/-- Shard `i`'s partial embedding output for token `x`: the dense projection
`self.proj` (an `hk.Linear` with weights `W` and, by default, a bias `b`)
applied to the local one-hot row. -/
def embedShardOut {perShard dm : ℕ} (W : Fin perShard → Fin dm → ℚ)
    (b : Fin dm → ℚ) (i x : ℕ) : Fin dm → ℚ :=
  fun d => (∑ j, embedOneHotRow perShard i x j * W j d) + b d

/-- `EmbeddingShard.__call__` for token `x`: `g_psum` of the per-shard partial
outputs (the replicated forward value). -/
def embeddingShardForward {k p dm : ℕ}
    (W : Fin (k + 1) → Fin (p + 1) → Fin dm → ℚ)
    (b : Fin (k + 1) → Fin dm → ℚ) (x : ℕ) : Fin dm → ℚ :=
  fun d => ∑ i, embedShardOut (W i) (b i) i.val x d

/-- Concrete two-shard embedding weights used to instantiate the embedding
theorem. -/
def exEmbedW : Fin 2 → Fin 1 → Fin 1 → ℚ := fun _ _ _ => 2

/-- Concrete two-shard embedding biases used to instantiate the embedding
theorem. -/
def exEmbedB : Fin 2 → Fin 1 → ℚ := fun _ _ => 1

/-- A single shard's all-zero weight matrix over a one-entry local vocabulary. -/
def exZeroW : Fin 1 → Fin 1 → ℚ := fun _ _ => 0

/-- A single shard's all-ones bias vector. -/
def exOneB : Fin 1 → ℚ := fun _ => 1

/-! ## Relative-position bucketing (`RelativePositionEmbs._relative_position_bucket`) -/

/-- `np.finfo(np.float32).eps`, i.e. `2^-23`. -/
noncomputable def eps32 : ℝ := 1 / 8388608

/-- `astype(np.int32)` on a real value: truncation toward zero. -/
noncomputable def truncToInt (x : ℝ) : ℤ := if 0 ≤ x then ⌊x⌋ else ⌈x⌉

/-- The `val_if_large` computation: `max_exact` plus the truncated log-scaled
offset, clamped to `num_buckets - 1`. -/
noncomputable def valIfLarge (numBuckets maxDistance n : ℕ) : ℤ :=
  min (((numBuckets / 2 : ℕ) : ℤ)
      + truncToInt (Real.log ((n : ℝ) / ((numBuckets / 2 : ℕ) : ℝ) + eps32)
          / Real.log ((maxDistance : ℝ) / ((numBuckets / 2 : ℕ) : ℝ))
          * ((numBuckets - numBuckets / 2 : ℕ) : ℝ)))
    ((numBuckets : ℤ) - 1)

/-- `_relative_position_bucket(relative_position, num_buckets, max_distance)`:
`n = max(-relative_position, 0)`; the identity bucket `n` when
`n < num_buckets // 2`, the log-scaled clamped bucket otherwise. -/
noncomputable def relativePositionBucket (numBuckets maxDistance : ℕ)
    (d : ℤ) : ℤ :=
  let n : ℕ := (max (-d) 0).toNat
  if n < numBuckets / 2 then (n : ℤ) else valIfLarge numBuckets maxDistance n

/-- The inner log-scaled value of `val_if_large` at the default parameters
`num_buckets = 32`, `max_distance = 128`. -/
noncomputable def bucketLargeVal (n : ℕ) : ℝ :=
  Real.log ((n : ℝ) / 16 + eps32) / Real.log 8 * 16

/-! ## RMS / scale normalization (`RMSNorm.__call__`) -/

/-- `jnp.linalg.norm(x, axis=-1)`: the Euclidean norm of the feature vector. -/
noncomputable def l2norm {dm : ℕ} (x : Fin dm → ℝ) : ℝ :=
  Real.sqrt (∑ j, (x j) ^ 2)

/-- `RMSNorm.__call__` executed on shard `i`, with every shard holding its own
copy `scaleP i` / `offsetP i` of the learned parameters (the scalar parameters
of the scalenorm variants are the constant-vector special case): normalize by
the vector norm plus `1e-5`, multiply by the scale after
`jax.lax.pmean(scale, "shard")`, and optionally add the offset after
`jax.lax.pmean(offset, "shard")`. -/
noncomputable def rmsnormCall {k dm : ℕ} (useOffset : Bool)
    (scaleP offsetP : Fin (k + 1) → Fin dm → ℝ) (x : Fin dm → ℝ)
    (i : Fin (k + 1)) : Fin dm → ℝ :=
  let normed : Fin dm → ℝ := fun j => x j / (l2norm x + 1e-5)
  let scaled : Fin dm → ℝ := fun j => normed j * laxPmean (fun s => scaleP s j) i
  if useOffset then (fun j => scaled j + laxPmean (fun s => offsetP s j) i)
  else scaled

/-- Modelled from the claim's words (not the source): the same normalization
but with scale and offset passed through `forwardIdentityBackwardMean`
(`f_pmean`), whose forward pass leaves the shard's own parameter value
unchanged. -/
noncomputable def rmsnormCallPerClaim {k dm : ℕ} (useOffset : Bool)
    (scaleP offsetP : Fin (k + 1) → Fin dm → ℝ) (x : Fin dm → ℝ)
    (i : Fin (k + 1)) : Fin dm → ℝ :=
  let normed : Fin dm → ℝ := fun j => x j / (l2norm x + 1e-5)
  let scaled : Fin dm → ℝ := fun j => normed j * f_pmean (fun s => scaleP s j) i
  if useOffset then (fun j => scaled j + f_pmean (fun s => offsetP s j) i)
  else scaled

/-- A two-shard scale parameter whose copies disagree across shards. -/
noncomputable def exScaleP : Fin 2 → Fin 1 → ℝ := fun s _ => if s = 0 then 0 else 2

/-- A two-shard all-zero offset parameter. -/
noncomputable def exZeroOffP : Fin 2 → Fin 1 → ℝ := fun _ _ => 0

/-- A two-shard scale parameter replicated identically across shards. -/
noncomputable def exRepScaleP : Fin 2 → Fin 1 → ℝ := fun _ _ => 3

/-- A two-shard offset parameter replicated identically across shards. -/
noncomputable def exRepOffP : Fin 2 → Fin 1 → ℝ := fun _ _ => 1

/-- The all-ones single-feature input vector. -/
noncomputable def exOneVec : Fin 1 → ℝ := fun _ => 1

end MeshTransformer

namespace MeshTransformer

/-! ## Theorems -/

/-- Helper: the carry of `scanList` is a left fold of the step's first
component. -/
theorem scanList_fst {S A B : Type} (f : S → A → S × B) (s : S) (as : List A) :
    (scanList f s as).1 = as.foldl (fun s a => (f s a).1) s := by
  induction as generalizing s with
  | nil => rfl
  | cons a rest ih => simp [scanList, ih]

/-- Helper: when the per-step output ignores the carry, the stacked outputs of
`scanList` are a plain map. -/
theorem scanList_snd_of_const {S A B : Type} (f : S → A → S × B) (out : A → B)
    (hout : ∀ s a, (f s a).2 = out a) (s : S) (as : List A) :
    (scanList f s as).2 = as.map out := by
  induction as generalizing s with
  | nil => rfl
  | cons a rest ih => simp [scanList, ih, hout]

/-- Helper: `concatShards` evaluated at the image of a (shard, local) pair
under `vocabEquiv` recovers the per-shard entry. -/
theorem concatShards_vocabEquiv {M : Type} {k p : ℕ}
    (f : Fin (k + 1) → Fin (p + 1) → M) (ij : Fin (k + 1) × Fin (p + 1)) :
    concatShards f (vocabEquiv k p ij) = f ij.1 ij.2 := by
  have h : concatShards f (vocabEquiv k p ij)
      = f ((vocabEquiv k p).symm (vocabEquiv k p ij)).1
          ((vocabEquiv k p).symm (vocabEquiv k p ij)).2 := rfl
  rw [h, Equiv.symm_apply_apply]

/-- Helper: a sum over the full vocabulary equals the double sum over shards
and local indices. -/
theorem sum_concatShards {M : Type} [AddCommMonoid M] {k p : ℕ}
    (f : Fin (k + 1) → Fin (p + 1) → M) :
    ∑ v, concatShards f v = ∑ i, ∑ j, f i j := by
  have h := Fintype.sum_equiv (vocabEquiv k p)
    (fun ij : Fin (k + 1) × Fin (p + 1) => f ij.1 ij.2)
    (fun v => concatShards f v)
    (fun ij => (concatShards_vocabEquiv f ij).symm)
  rw [← h]
  exact Fintype.sum_prod_type
    (fun ij : Fin (k + 1) × Fin (p + 1) => f ij.1 ij.2)

/-- Helper: a double sum of an indicator on `i*(p+1)+j = x` collapses to the
entry owned by shard `x/(p+1)` at local index `x%(p+1)`. -/
theorem sum_ite_divmod {M : Type} [AddCommMonoid M] {k p : ℕ}
    (f : Fin (k + 1) → Fin (p + 1) → M) (x : ℕ) (hx : x < (k + 1) * (p + 1)) :
    (∑ i, ∑ j, if i.val * (p + 1) + j.val = x then f i j else 0)
      = concatShards f ⟨x, hx⟩ := by
  rw [← sum_concatShards
    (fun (i : Fin (k + 1)) (j : Fin (p + 1)) =>
      if i.val * (p + 1) + j.val = x then f i j else 0)]
  have hv : ∀ v : Fin ((k + 1) * (p + 1)),
      concatShards (fun i j => if i.val * (p + 1) + j.val = x then f i j else 0) v
        = if v = ⟨x, hx⟩ then concatShards f v else 0 := by
    intro v
    have h0 : concatShards
        (fun i j => if i.val * (p + 1) + j.val = x then f i j else 0) v
          = if v.val / (p + 1) * (p + 1) + v.val % (p + 1) = x
            then concatShards f v else 0 := rfl
    have hvv : v.val / (p + 1) * (p + 1) + v.val % (p + 1) = v.val := by
      rw [Nat.mul_comm]
      exact Nat.div_add_mod _ _
    rw [h0, hvv]
    simp [Fin.ext_iff]
  rw [Finset.sum_congr rfl (fun v _ => hv v),
    Finset.sum_ite_eq' Finset.univ ⟨x, hx⟩ (concatShards f)]
  simp

/-- C1: the sharded cross-entropy protocol of `ProjectionShard.loss` (global
max-reduce with gradient detach, one-hot target-logit extraction combined by a
forward sum, local exp-sums combined by a forward sum) returns, for every
per-shard logit family and in-vocabulary target id, the same per-token value
as the unsharded reference `log(sum(exp(allLogits))) - allLogits[target]`
computed on the full concatenated logits. -/
theorem projectionShardLoss_eq_full {k p : ℕ}
    (l : Fin (k + 1) → Fin (p + 1) → ℝ) (t : ℕ)
    (ht : t < (k + 1) * (p + 1)) :
    projectionShardLoss l t
      = Real.log (∑ v, Real.exp (concatShards l v)) - concatShards l ⟨t, ht⟩ := by
  unfold projectionShardLoss
  set M := globalMax l with hM
  have hpred : (∑ i, ∑ j, oneHot (p + 1) ((t : ℤ) - (i.val * (p + 1) : ℕ)) j
      * (l i j - M)) = concatShards l ⟨t, ht⟩ - M := by
    have h1 : ∀ (i : Fin (k + 1)) (j : Fin (p + 1)),
        oneHot (p + 1) ((t : ℤ) - (i.val * (p + 1) : ℕ)) j * (l i j - M)
          = if i.val * (p + 1) + j.val = t then l i j - M else 0 := by
      intro i j
      have hc : ((j.val : ℤ) = (t : ℤ) - ((i.val * (p + 1) : ℕ) : ℤ))
          ↔ (i.val * (p + 1) + j.val = t) := by
        generalize (i.val * (p + 1) : ℕ) = a
        omega
      simp only [oneHot]
      rw [if_congr hc rfl rfl, ite_mul, one_mul, zero_mul]
    calc (∑ i, ∑ j, oneHot (p + 1) ((t : ℤ) - (i.val * (p + 1) : ℕ)) j
          * (l i j - M))
        = ∑ i, ∑ j, if i.val * (p + 1) + j.val = t then l i j - M else 0 :=
          Finset.sum_congr rfl fun i _ => Finset.sum_congr rfl fun j _ => h1 i j
      _ = concatShards (fun i j => l i j - M) ⟨t, ht⟩ := sum_ite_divmod _ t ht
      _ = concatShards l ⟨t, ht⟩ - M := rfl
  have hS : (∑ v, Real.exp (concatShards l v)) = ∑ i, ∑ j, Real.exp (l i j) :=
    sum_concatShards (fun i j => Real.exp (l i j))
  have hexp : (∑ i, ∑ j, Real.exp (l i j - M))
      = (∑ v, Real.exp (concatShards l v)) * Real.exp (-M) := by
    simp only [sub_eq_add_neg, Real.exp_add, hS, ← Finset.sum_mul]
  haveI : Nonempty (Fin ((k + 1) * (p + 1))) := ⟨⟨t, ht⟩⟩
  have hSpos : 0 < ∑ v, Real.exp (concatShards l v) :=
    Finset.sum_pos (fun v _ => Real.exp_pos _) Finset.univ_nonempty
  rw [hpred, hexp, Real.log_mul (ne_of_gt hSpos) (Real.exp_ne_zero _),
    Real.log_exp]
  ring

/-- C1 witness: the sharded/unsharded loss identity instantiated at a
one-shard, one-entry vocabulary with zero logits and target 0. -/
theorem projectionShardLoss_eq_full_witness :
    projectionShardLoss exLogits 0
      = Real.log (∑ v, Real.exp (concatShards exLogits v))
        - concatShards exLogits ⟨0, by decide⟩ :=
  projectionShardLoss_eq_full exLogits 0 (by decide)

/-- C8 (amended): a token outside a shard's owned vocabulary range produces an
all-zero one-hot row, so that shard's partial output is exactly its bias
vector (zero contribution only when the bias is zero); and for an
in-vocabulary token the forward sum of the per-shard partial outputs equals
the owning shard's embedding row for that token plus the sum of every shard's
bias vector, replicated to all shards. -/
theorem embeddingShard_partials {k p dm : ℕ}
    (W : Fin (k + 1) → Fin (p + 1) → Fin dm → ℚ)
    (b : Fin (k + 1) → Fin dm → ℚ) (x : ℕ) :
    (∀ i : Fin (k + 1),
      ¬ (i.val * (p + 1) ≤ x ∧ x < (i.val + 1) * (p + 1)) →
        (∀ j, embedOneHotRow (p + 1) i.val x j = 0)
          ∧ embedShardOut (W i) (b i) i.val x = b i)
      ∧ ∀ hx : x < (k + 1) * (p + 1),
          embeddingShardForward W b x
            = fun d => concatShards W ⟨x, hx⟩ d + ∑ i, b i d := by
  constructor
  · intro i hrange
    have hz : ∀ j : Fin (p + 1), embedOneHotRow (p + 1) i.val x j = 0 := by
      intro j
      rw [embedOneHotRow, if_neg]
      intro he
      apply hrange
      have hj : j.val < p + 1 := j.isLt
      constructor
      · omega
      · have hsm : (i.val + 1) * (p + 1) = i.val * (p + 1) + (p + 1) :=
          Nat.succ_mul _ _
        omega
    refine ⟨hz, ?_⟩
    funext d
    simp only [embedShardOut]
    rw [Finset.sum_eq_zero (fun j _ => by rw [hz j, zero_mul]), zero_add]
  · intro hx
    funext d
    simp only [embeddingShardForward, embedShardOut]
    rw [Finset.sum_add_distrib]
    congr 1
    calc ∑ i, ∑ j, embedOneHotRow (p + 1) i.val x j * W i j d
        = ∑ i, ∑ j, if i.val * (p + 1) + j.val = x then W i j d else 0 := by
          refine Finset.sum_congr rfl fun i _ =>
            Finset.sum_congr rfl fun j _ => ?_
          simp only [embedOneHotRow, ite_mul, one_mul, zero_mul]
      _ = concatShards (fun i j => W i j d) ⟨x, hx⟩ := sum_ite_divmod _ x hx
      _ = concatShards W ⟨x, hx⟩ d := rfl

/-- C8 witness: the amended embedding statement at a concrete two-shard,
two-row vocabulary: token 1 lies outside shard 0's range, whose partial output
is its bias row, and the summed forward output is the owning row plus both
biases. -/
theorem embeddingShard_partials_witness :
    ((∀ j, embedOneHotRow 1 0 1 j = 0)
        ∧ embedShardOut (exEmbedW 0) (exEmbedB 0) 0 1 = exEmbedB 0)
      ∧ embeddingShardForward exEmbedW exEmbedB 1
          = fun d => concatShards exEmbedW ⟨1, by decide⟩ d + ∑ i, exEmbedB i d :=
  ⟨(embeddingShard_partials exEmbedW exEmbedB 1).1 0 (by decide),
   (embeddingShard_partials exEmbedW exEmbedB 1).2 (by decide)⟩

/-- C8 counterexample: with a zero weight matrix and bias 1, the out-of-range
token 1 still makes shard 0's partial output nonzero (the claim asserts the
contribution is zero, but `hk.Linear` is constructed with its default bias
term, which is added even to an all-zero one-hot row). -/
theorem embedShardOut_out_of_range_ne_zero :
    embedShardOut exZeroW exOneB 0 1 ≠ (fun _ : Fin 1 => (0 : ℚ)) := by
  intro h
  have h0 := congrFun h 0
  simp [embedShardOut, embedOneHotRow, exZeroW, exOneB] at h0

/-- Helper: at the default parameters, `val_if_large` is the clamped truncated
log-scaled value. -/
theorem valIfLarge_32_128 (n : ℕ) :
    valIfLarge 32 128 n = min (16 + truncToInt (bucketLargeVal n)) 31 := by
  unfold valIfLarge bucketLargeVal
  norm_num

/-- Helper: the log-scaled value is nonnegative in the large regime. -/
theorem bucketLargeVal_nonneg (n : ℕ) (h : 16 ≤ n) : 0 ≤ bucketLargeVal n := by
  unfold bucketLargeVal
  have hn : (16 : ℝ) ≤ (n : ℝ) := by exact_mod_cast h
  have h2 : (1 : ℝ) ≤ (n : ℝ) / 16 := by
    rw [le_div_iff₀ (by norm_num : (0 : ℝ) < 16)]
    linarith
  have h3 : (0 : ℝ) ≤ eps32 := by norm_num [eps32]
  have h1 : (1 : ℝ) ≤ (n : ℝ) / 16 + eps32 := by linarith
  have h8 : 0 < Real.log 8 := Real.log_pos (by norm_num)
  exact mul_nonneg (div_nonneg (Real.log_nonneg h1) h8.le) (by norm_num)

/-- Helper: the log-scaled value is monotone in `n`. -/
theorem bucketLargeVal_mono {n1 n2 : ℕ} (h : n1 ≤ n2) :
    bucketLargeVal n1 ≤ bucketLargeVal n2 := by
  unfold bucketLargeVal
  have he : (0 : ℝ) < eps32 := by norm_num [eps32]
  have hd : (0 : ℝ) ≤ (n1 : ℝ) / 16 :=
    div_nonneg (Nat.cast_nonneg n1) (by norm_num)
  have hpos : (0 : ℝ) < (n1 : ℝ) / 16 + eps32 := by linarith
  have hcast : (n1 : ℝ) ≤ (n2 : ℝ) := by exact_mod_cast h
  have hle : (n1 : ℝ) / 16 + eps32 ≤ (n2 : ℝ) / 16 + eps32 := by
    have hdd : (n1 : ℝ) / 16 ≤ (n2 : ℝ) / 16 :=
      (div_le_div_iff_of_pos_right (by norm_num : (0 : ℝ) < 16)).mpr hcast
    linarith
  have hlog := Real.log_le_log hpos hle
  have h8 : 0 < Real.log 8 := Real.log_pos (by norm_num)
  have hdiv := (div_le_div_iff_of_pos_right h8).mpr hlog
  exact mul_le_mul_of_nonneg_right hdiv (by norm_num)

/-- Helper: `astype(int32)` truncation agrees with floor on nonneg values. -/
theorem truncToInt_eq_floor {x : ℝ} (h : 0 ≤ x) : truncToInt x = ⌊x⌋ :=
  if_pos h

/-- Helper: the large-regime bucket is at least 16. -/
theorem valIfLarge_32_128_lb (n : ℕ) (h : 16 ≤ n) :
    16 ≤ valIfLarge 32 128 n := by
  rw [valIfLarge_32_128]
  have h0 := bucketLargeVal_nonneg n h
  apply le_min
  · rw [truncToInt_eq_floor h0]
    have := Int.floor_nonneg.mpr h0
    omega
  · norm_num

/-- Helper: the large-regime bucket is monotone. -/
theorem valIfLarge_32_128_mono {n1 n2 : ℕ} (h16 : 16 ≤ n1) (h : n1 ≤ n2) :
    valIfLarge 32 128 n1 ≤ valIfLarge 32 128 n2 := by
  rw [valIfLarge_32_128, valIfLarge_32_128]
  have h1 := bucketLargeVal_nonneg n1 h16
  have h2 := bucketLargeVal_nonneg n2 (le_trans h16 h)
  rw [truncToInt_eq_floor h1, truncToInt_eq_floor h2]
  have hf := Int.floor_le_floor (bucketLargeVal_mono h)
  exact min_le_min (by omega) (le_refl _)

/-- Helper: small-regime unfolding of the bucket function. -/
theorem rpb_32_128_small {d : ℤ} (h : (max (-d) 0).toNat < 16) :
    relativePositionBucket 32 128 d = ((max (-d) 0).toNat : ℤ) := by
  unfold relativePositionBucket
  have h2 : (max (-d) 0).toNat < 32 / 2 := by omega
  simp [h2]

/-- Helper: large-regime unfolding of the bucket function. -/
theorem rpb_32_128_large {d : ℤ} (h : 16 ≤ (max (-d) 0).toNat) :
    relativePositionBucket 32 128 d = valIfLarge 32 128 ((max (-d) 0).toNat) := by
  unfold relativePositionBucket
  have h2 : ¬ ((max (-d) 0).toNat < 32 / 2) := by omega
  simp [h2]

/-- C5: with `numBuckets = 32` and `maxDistance = 128`, the relative-position
bucket is non-decreasing in `-d` for `d ≤ 0`; it equals `n = max(-d, 0)`
exactly whenever `n < 16`; and it always lies in `[0, 31]`. -/
theorem relativePositionBucket_properties :
    (∀ d1 d2 : ℤ, d2 ≤ d1 → d1 ≤ 0 →
        relativePositionBucket 32 128 d1 ≤ relativePositionBucket 32 128 d2)
      ∧ (∀ d : ℤ, (max (-d) 0).toNat < 16 →
          relativePositionBucket 32 128 d = max (-d) 0)
      ∧ ∀ d : ℤ, 0 ≤ relativePositionBucket 32 128 d
          ∧ relativePositionBucket 32 128 d ≤ 31 := by
  refine ⟨?_, ?_, ?_⟩
  · intro d1 d2 h21 h10
    have hmax : max (-d1) 0 ≤ max (-d2) 0 := by omega
    have hn : (max (-d1) 0).toNat ≤ (max (-d2) 0).toNat :=
      Int.toNat_le_toNat hmax
    by_cases hc2 : (max (-d2) 0).toNat < 16
    · have hc1 : (max (-d1) 0).toNat < 16 := lt_of_le_of_lt hn hc2
      rw [rpb_32_128_small hc1, rpb_32_128_small hc2]
      exact_mod_cast hn
    · push_neg at hc2
      rw [rpb_32_128_large hc2]
      by_cases hc1 : (max (-d1) 0).toNat < 16
      · rw [rpb_32_128_small hc1]
        have := valIfLarge_32_128_lb _ hc2
        omega
      · push_neg at hc1
        rw [rpb_32_128_large hc1]
        exact valIfLarge_32_128_mono hc1 hn
  · intro d h
    rw [rpb_32_128_small h]
    exact Int.toNat_of_nonneg (le_max_right _ _)
  · intro d
    by_cases h : (max (-d) 0).toNat < 16
    · rw [rpb_32_128_small h]
      constructor
      · exact Int.natCast_nonneg _
      · omega
    · push_neg at h
      rw [rpb_32_128_large h]
      constructor
      · have := valIfLarge_32_128_lb _ h
        omega
      · rw [valIfLarge_32_128]
        exact min_le_right _ _

/-- C5 witness: the three bucket properties applied at concrete offsets:
monotonicity from `-1` to `-2`, exactness at `-5`, and bounds at `-100`. -/
theorem relativePositionBucket_properties_witness :
    relativePositionBucket 32 128 (-1) ≤ relativePositionBucket 32 128 (-2)
      ∧ relativePositionBucket 32 128 (-5) = max (-(-5)) 0
      ∧ (0 ≤ relativePositionBucket 32 128 (-100)
          ∧ relativePositionBucket 32 128 (-100) ≤ 31) :=
  ⟨relativePositionBucket_properties.1 (-1) (-2) (by decide) (by decide),
   relativePositionBucket_properties.2.1 (-5) (by decide),
   relativePositionBucket_properties.2.2 (-100)⟩

/-- C6 (amended): `RMSNorm` passes its scale and offset through
`jax.lax.pmean` (a forward cross-shard mean) rather than through
`forwardIdentityBackwardMean`; whenever the parameters are replicated
identically across shards — as they are when every shard ran the same
initializer and the backward mean keeps them in sync — the applied values
coincide with the claimed forward-identity behavior on every shard. -/
theorem rmsnormCall_replicated_matches_claim {k dm : ℕ} (useOffset : Bool)
    (scaleP offsetP : Fin (k + 1) → Fin dm → ℝ)
    (hs : ∀ s s' : Fin (k + 1), scaleP s = scaleP s')
    (ho : ∀ s s' : Fin (k + 1), offsetP s = offsetP s')
    (x : Fin dm → ℝ) (i : Fin (k + 1)) :
    rmsnormCall useOffset scaleP offsetP x i
      = rmsnormCallPerClaim useOffset scaleP offsetP x i := by
  have key : ∀ P : Fin (k + 1) → Fin dm → ℝ, (∀ s s', P s = P s') →
      ∀ j, laxPmean (fun s => P s j) i = P i j := by
    intro P hP j
    unfold laxPmean
    have hsum : (∑ s, P s j) = ((k + 1 : ℕ) : ℝ) * P i j := by
      rw [Finset.sum_congr rfl (fun s _ => congrFun (hP s i) j),
        Finset.sum_const, Finset.card_univ, Fintype.card_fin, nsmul_eq_mul]
    rw [hsum, mul_div_cancel_left₀]
    exact Nat.cast_ne_zero.mpr (Nat.succ_ne_zero k)
  funext j
  cases useOffset <;>
    simp [rmsnormCall, rmsnormCallPerClaim, f_pmean, key scaleP hs,
      key offsetP ho]

/-- C6 witness: the amended statement at concrete replicated two-shard
parameters with an offset. -/
theorem rmsnormCall_replicated_matches_claim_witness :
    rmsnormCall true exRepScaleP exRepOffP exOneVec 0
      = rmsnormCallPerClaim true exRepScaleP exRepOffP exOneVec 0 :=
  rmsnormCall_replicated_matches_claim true exRepScaleP exRepOffP
    (fun _ _ => rfl) (fun _ _ => rfl) exOneVec 0

/-- C6 counterexample: with shard-dependent scale copies (shard 0 holding 0,
shard 1 holding 2), the code's `jax.lax.pmean` produces a different forward
value on shard 0 than the claimed forward-identity operator, so the scale is
not passed through `forwardIdentityBackwardMean`. -/
theorem rmsnorm_scale_forward_not_identity :
    rmsnormCall false exScaleP exZeroOffP exOneVec 0
      ≠ rmsnormCallPerClaim false exScaleP exZeroOffP exOneVec 0 := by
  intro h
  have h0 := congrFun h 0
  simp [rmsnormCall, rmsnormCallPerClaim, laxPmean, f_pmean, exScaleP,
    exZeroOffP, exOneVec, l2norm, Fin.sum_univ_two, Fin.sum_univ_one,
    Real.sqrt_one] at h0
  norm_num at h0

/-- C2: `g_psum` returns on the forward pass the sum of the per-shard values,
replicated to every shard, and its backward rule delivers the upstream
gradient to each shard unchanged. -/
theorem g_psum_forward_sum_backward_identity {α : Type} [AddCommMonoid α]
    {k : ℕ} (x g : Fin k → α) :
    (∀ i, g_psum x i = ∑ j, x j) ∧
      (∀ i i', g_psum x i = g_psum x i') ∧
      g_psum_bwd g = g := by
  refine ⟨fun i => rfl, fun i i' => rfl, rfl⟩

/-- C3 (amended): `trainStep` performs, in order: per-microbatch bf16 cast of
the parameters, gradient accumulation as an ordered left fold from a zero bf16
accumulator, a mean-reduction of the accumulated gradient over the
data-parallel `"batch"` axis, the optimizer applied to that (reduced-precision)
gradient, the f32 cast of the resulting updates, their application to the
full-precision parameters, and a step-counter increment; losses are the
per-microbatch loss values, f32-cast, in batch order. -/
theorem trainStep_pipeline {P O L C T : Type} (ops : EngineOps P O L C T)
    (state : TrainState P O) (batches : List (C × T)) :
    trainStep ops state batches =
      (let gradAcc := batches.foldl
        (fun g b => ops.treeAdd g
          (ops.valueAndGrad (ops.toBF16 state.params) b.1 b.2).2)
        (ops.zeroLikeBF16 state.params)
      let upd := ops.optUpdate (ops.pmeanBatch gradAcc) state.optState
        state.params
      ((batches.map
          (fun b => ops.toF32L
            (ops.valueAndGrad (ops.toBF16 state.params) b.1 b.2).1)),
       { params := ops.applyUpdates state.params (ops.toF32P upd.1),
         step := state.step + 1,
         optState := upd.2 })) := by
  have h1 := scanList_fst (microbatchStep ops state.params)
    (ops.zeroLikeBF16 state.params) batches
  have h2 := scanList_snd_of_const (microbatchStep ops state.params)
    (fun b => (ops.valueAndGrad (ops.toBF16 state.params) b.1 b.2).1)
    (fun s a => rfl) (ops.zeroLikeBF16 state.params) batches
  simp only [trainStep, h1, h2, microbatchStep, List.map_map]
  rfl

/-- C3 counterexample: with a concrete instantiation of the external
operations, the pipeline the claim describes (full-precision cast of the
averaged gradient before the optimizer, updates applied uncast) produces a
different new parameter value than the code's pipeline (optimizer on the
reduced-precision gradient, updates cast to full precision before
application). -/
theorem trainStep_claim_order_differs :
    (trainStep intOps intState [((0 : ℤ), (0 : ℤ))]).2.params
      ≠ (trainStepPerClaim intOps intState [((0 : ℤ), (0 : ℤ))]).2.params := by
  decide

/-- C4 (amended): provided at least one transformer layer is configured, the
assertions executed during `CausalTransformerShard` construction succeed
exactly when all four divisibility invariants hold (the
`modelDim % numShards == 0` invariant has no assert of its own but is implied
by the `dim % heads` and `heads % shards` asserts). -/
theorem causalTransformerShardAsserts_iff_invariants (c : TransformerConfig)
    (hl : 1 ≤ c.layers) :
    causalTransformerShardAsserts c = true ↔ configInvariants c := by
  have hlz : (c.layers == 0) = false := by
    simp only [beq_eq_false_iff_ne, ne_eq]
    omega
  constructor
  · intro h
    simp only [causalTransformerShardAsserts, embeddingShardAssert,
      transformerLayerShardAsserts, projectionShardAssert, hlz,
      Bool.false_or, Bool.and_eq_true, beq_iff_eq] at h
    obtain ⟨⟨h1, h2, h3⟩, h4⟩ := h
    refine ⟨h2, h3, h4, ?_⟩
    obtain ⟨q, hq⟩ : c.cores_per_replica ∣ c.d_model :=
      dvd_trans (Nat.dvd_of_mod_eq_zero h3) (Nat.dvd_of_mod_eq_zero h2)
    simp [hq, Nat.mul_mod_right]
  · intro h
    obtain ⟨h1, h2, h3, _⟩ := h
    simp [causalTransformerShardAsserts, embeddingShardAssert,
      transformerLayerShardAsserts, projectionShardAssert, hlz, h1, h2, h3]

/-- C4 witness: the amended equivalence applied to a concrete well-formed
one-layer configuration. -/
theorem causalTransformerShardAsserts_iff_invariants_witness :
    causalTransformerShardAsserts okConfig = true ↔ configInvariants okConfig :=
  causalTransformerShardAsserts_iff_invariants okConfig (by decide)

/-- C4 counterexample: a configuration with zero layers whose `d_model` is not
divisible by `n_heads` passes every assertion executed at construction time,
so this invariant violation does not raise. -/
theorem zeroLayerConfig_passes_asserts_but_violates_invariants :
    causalTransformerShardAsserts zeroLayerConfig = true
      ∧ ¬ configInvariants zeroLayerConfig := by
  constructor
  · decide
  · intro h
    exact absurd h.1 (by decide)

/-- C7 (amended): `getnorm` succeeds exactly on the six names `layernorm`,
`layernorm-nobias`, `rmsnorm`, `scalenorm`, `rmsnorm-bias`, `scalenorm-bias`,
and fails (raises) on every other name. -/
theorem getnorm_isSome_iff (s : String) :
    (getnorm s).isSome = true ↔
      (s = "layernorm" ∨ s = "layernorm-nobias" ∨ s = "rmsnorm" ∨
        s = "scalenorm" ∨ s = "rmsnorm-bias" ∨ s = "scalenorm-bias") := by
  unfold getnorm
  split_ifs <;> simp_all

/-- C7 witness: the amended equivalence instantiated at `scalenorm`, giving a
successful construction. -/
theorem getnorm_isSome_iff_witness : (getnorm "scalenorm").isSome = true :=
  (getnorm_isSome_iff "scalenorm").mpr
    (Or.inr (Or.inr (Or.inr (Or.inl rfl))))

/-- C7 counterexample: the claimed variant name `layernorm-no-bias` is
rejected by `getnorm`, while the name the code actually accepts is
`layernorm-nobias`. -/
theorem getnorm_rejects_layernorm_no_bias :
    getnorm "layernorm-no-bias" = none
      ∧ getnorm "layernorm-nobias"
          = some (NormModule.replicatedLayerNorm false) := by
  constructor <;> rfl

/-- C9: the evaluation step depends only on the loss function, the precision
cast, and the parameters (in particular not on the optimizer state, the step
counter, the gradient function, or the optimizer); the `eval` method leaves
the training state unchanged; and evaluating twice in a row with the same
batch returns the identical loss. -/
theorem evalStep_pure_deterministic {P O L C T : Type}
    (ops ops2 : EngineOps P O L C T) (s1 s2 : TrainState P O) (ctx : C)
    (tgt : T) (hloss : ops.evalLossFn = ops2.evalLossFn)
    (hcast : ops.toBF16 = ops2.toBF16) (hparams : s1.params = s2.params) :
    evalStep ops s1 ctx tgt = evalStep ops2 s2 ctx tgt ∧
      (causalTransformerEval ops s1 ctx tgt).2 = s1 ∧
      (causalTransformerEval ops
          (causalTransformerEval ops s1 ctx tgt).2 ctx tgt).1
        = (causalTransformerEval ops s1 ctx tgt).1 := by
  refine ⟨?_, rfl, rfl⟩
  simp [evalStep, hloss, hcast, hparams]

/-- C9 witness: the purity statement applied at the concrete integer
instantiation, with a second state differing in step counter and optimizer
state but sharing the parameters. -/
theorem evalStep_pure_deterministic_witness :
    evalStep intOps intState 5 7
        = evalStep intOps { params := 0, step := 3, optState := 9 } 5 7 ∧
      (causalTransformerEval intOps intState 5 7).2 = intState ∧
      (causalTransformerEval intOps
          (causalTransformerEval intOps intState 5 7).2 5 7).1
        = (causalTransformerEval intOps intState 5 7).1 :=
  evalStep_pure_deterministic intOps intOps intState
    { params := 0, step := 3, optState := 9 } 5 7 rfl rfl rfl

/-- C10: the assembled forward pass applies every transformer layer through an
additive residual connection: it equals the loss head applied to the residual
stream, and extending the stack by one layer `f` turns the stream value `y`
into `y + f y bias` (each block's output is added to its input). -/
theorem causalTransformerShardEval_residual {α β γ δ : Type} [Add α]
    (embed : γ → α) (attnBias : β) (layers : List (α → β → α))
    (projLoss : α → δ) (context : γ) :
    causalTransformerShardEval embed attnBias layers projLoss context
        = projLoss (residualStream attnBias layers (embed context)) ∧
      (∀ (fs : List (α → β → α)) (f : α → β → α) (x : α),
        residualStream attnBias (fs ++ [f]) x
          = residualStream attnBias fs x
              + f (residualStream attnBias fs x) attnBias) := by
  refine ⟨rfl, fun fs f x => ?_⟩
  simp [residualStream]

end MeshTransformer
